import Mathlib

/-!
Verification of the `SonarI18n` internationalization engine
(`src/marquee.ts`, second document: the i18n module).

The TypeScript class is embedded shallowly:
  * the static language registry becomes a concrete list of `LanguageConfig`;
  * the mutable instance fields plus the browser state the methods touch
    (`window.location.pathname`, `localStorage['sonar_language']`, dispatched
    `languageChanged` events, issued `fetch` calls) become an explicit
    `EngineState` record threaded through the operations;
  * JavaScript strings are modelled as `String` (lists of characters; all
    characters involved in the claims are in the basic plane, where JS code
    units and code points agree);
  * JavaScript truthiness of a string (`""` and `null` are falsy) is modelled
    explicitly where the source relies on it;
  * fallible steps return `Except`.
-/

/-- JS `Map.get` / object property read on a string-keyed table:
first (unique) matching key wins. -/
def lookupAssoc {α : Type} : List (String × α) → String → Option α
  | [], _ => none
  | (k, v) :: rest, key => if k == key then some v else lookupAssoc rest key

/-- JS `Map.set`: replace the entry in place if the key exists, else append. -/
def setAssoc {α : Type} : List (String × α) → String → α → List (String × α)
  | [], key, v => [(key, v)]
  | (k, w) :: rest, key, v =>
    if k == key then (key, v) :: rest else (k, w) :: setAssoc rest key v

/-- JS `String.prototype.split` with a one-character separator.
`splitOnChar sep "".data = [[]]`, matching `"".split(sep) = [""]`. -/
def splitOnChar (sep : Char) : List Char → List (List Char)
  | [] => [[]]
  | c :: cs =>
    let r := splitOnChar sep cs
    if c == sep then [] :: r
    else match r with
      | [] => [[c]]
      | g :: gs => (c :: g) :: gs

/-- Strip an exact sequence of characters from the front of a list. -/
def stripLeading : List Char → List Char → Option (List Char)
  | [], s => some s
  | _ :: _, [] => none
  | p :: ps, c :: cs => if p == c then stripLeading ps cs else none

/-- JS `String.prototype.replace` with a plain-string search argument:
replace the first occurrence only (the replacement text used by the source
contains no `$` escapes). -/
def replaceFirstList (pat repl : List Char) : List Char → List Char
  | [] => if pat.isEmpty then repl else []
  | c :: cs =>
    if pat.isPrefixOf (c :: cs) then repl ++ (c :: cs).drop pat.length
    else c :: replaceFirstList pat repl cs

/-- `replaceFirstList` lifted to `String`. -/
def replaceFirst (s pat repl : String) : String :=
  String.mk (replaceFirstList pat.data repl.data s.data)

/-- The characters matched by the regex class `\s` of the host's regex engine
(space, tab, line feed, vertical tab, form feed, carriage return, NBSP; the
rarer Unicode space characters are omitted — no claim involves them). -/
def isJsSpace (c : Char) : Bool :=
  c == ' ' || c == '\t' || c == '\n' || c == '\r' ||
  c == Char.ofNat 11 || c == Char.ofNat 12 || c == Char.ofNat 160

/-- The closing step of the placeholder match: require the two closing
braces after the second greedy whitespace run. -/
def matchBraces : List Char → Option (List Char)
  | '\x7d' :: '\x7d' :: r => some r
  | _ => none

/-- Attempt to match the regex `\x7b\x7b\s*NAME\s*\x7d\x7d` at the head of
`s`, returning the remaining characters after the match.  For a placeholder
name that neither starts nor ends with a whitespace character and contains no
regex metacharacter this reproduces the regex engine exactly: the greedy `\s*`
runs are bounded by the non-space characters that follow them. -/
def matchAt (placeholder : List Char) (s : List Char) : Option (List Char) :=
  match s with
  | '\x7b' :: '\x7b' :: rest =>
    match stripLeading placeholder (rest.dropWhile isJsSpace) with
    | some r2 => matchBraces (r2.dropWhile isJsSpace)
    | none => none
  | _ => none

/-- The GetSubstitution step of `String.prototype.replace` with a string
replacement, for a regex with no capture groups (the source's pattern has
none): `$$` inserts a dollar sign, `$&` the matched text, a dollar followed
by a backquote (code 96) the part of the original subject before the match,
a dollar followed by an apostrophe (code 39) the part after it; a dollar in
any other context — including `$n`, since there are no capture groups, and
`$<`, since there are no named groups — is literal. -/
def getSubstitution : List Char → List Char → List Char → List Char → List Char
  | [], _, _, _ => []
  | c :: rest, matched, pre, post =>
    if c == '$' then
      match rest with
      | [] => ['$']
      | c2 :: rest2 =>
        if c2 == '$' then '$' :: getSubstitution rest2 matched pre post
        else if c2 == '&' then
          matched ++ getSubstitution rest2 matched pre post
        else if c2 == Char.ofNat 96 then
          pre ++ getSubstitution rest2 matched pre post
        else if c2 == Char.ofNat 39 then
          post ++ getSubstitution rest2 matched pre post
        else '$' :: c2 :: getSubstitution rest2 matched pre post
    else c :: getSubstitution rest matched pre post

/-- Global (`g`-flag) replacement of the placeholder pattern, scanning left
to right, never rescanning replacement text — the behaviour of
`String.prototype.replace` with a global regex and a string replacement.
At each match the inserted text is `getSubstitution` of the replacement
value, computed against the original subject: `pre` accumulates the original
characters already scanned (the text before the current position) and the
unscanned remainder is the text after the match.  The fuel argument (always
instantiated with the length of the subject, which bounds the number of scan
steps) keeps the recursion structural so that concrete instances compute. -/
def replaceAllFuel (placeholder value : List Char) :
    Nat → List Char → List Char → List Char
  | _, _, [] => []
  | 0, _, s => s
  | fuel + 1, pre, c :: cs =>
    match matchAt placeholder (c :: cs) with
    | some rest =>
      let matched := (c :: cs).take ((c :: cs).length - rest.length)
      getSubstitution value matched pre rest ++
        replaceAllFuel placeholder value fuel (pre ++ matched) rest
    | none => c :: replaceAllFuel placeholder value fuel (pre ++ [c]) cs

/-- One `translation.replace(new RegExp(..., 'g'), value)` step of `t`,
for a placeholder whose pattern compiled. -/
def interpolateOne (placeholder value s : String) : String :=
  String.mk (replaceAllFuel placeholder.data value.data s.data.length [] s.data)

/-- Modelled from the collaborator (the host's `new RegExp`): a conservative
syntactic validity check for the patterns the source builds.  Tracks group
nesting, whether a quantifier may attach, and whether a character class is
open; `\x7b` and `\x7d` are treated as literal characters (Annex-B
behaviour).  Lazy quantifiers and named groups are not modelled; no theorem
below depends on a name using them.  On the inputs the theorems do use —
names made of alphanumeric characters (valid) and the name `"("` (an
unterminated group, invalid) — it agrees with the engine. -/
def regexSyntaxOk : List Char → Nat → Bool → Bool → Bool
  | [], depth, _, inClass => !inClass && depth == 0
  | c :: rest, depth, canQuant, inClass =>
    if c == '\\' then
      match rest with
      | [] => false
      | _ :: rest2 => regexSyntaxOk rest2 depth true inClass
    else if inClass then
      if c == ']' then regexSyntaxOk rest depth true false
      else regexSyntaxOk rest depth canQuant true
    else if c == '[' then regexSyntaxOk rest depth false true
    else if c == '(' then regexSyntaxOk rest (depth + 1) false false
    else if c == ')' then
      match depth with
      | 0 => false
      | d + 1 => regexSyntaxOk rest d true false
    else if c == '*' || c == '+' || c == '?' then
      canQuant && regexSyntaxOk rest depth false false
    else regexSyntaxOk rest depth true false

/-- The characters of the pattern `"\x7b\x7b\\s*" + placeholder + "\\s*\x7d\x7d"`
that `t` hands to `new RegExp`. -/
def interpPatternChars (placeholder : String) : List Char :=
  '\x7b' :: '\x7b' :: '\\' :: 's' :: '*' ::
    (placeholder.data ++ ('\\' :: 's' :: '*' :: '\x7d' :: '\x7d' :: []))

/-- Whether `new RegExp` accepts the interpolation pattern for this
placeholder name (see `regexSyntaxOk`). -/
def interpRegexCompiles (placeholder : String) : Bool :=
  regexSyntaxOk (interpPatternChars placeholder) 0 false false

/-- Text direction of a locale (`'ltr' | 'rtl'`). -/
inductive Direction where
  | ltr
  | rtl
deriving DecidableEq

/-- `LanguageConfig` from the source. -/
structure LanguageConfig where
  code : String
  name : String
  nativeName : String
  direction : Direction
  flag : String
  dateFormat : String
  currency : String
  enabled : Bool

/-- `Translation`: arbitrarily nested mapping from string keys to string
leaves or further trees (the JSON shape the store holds). -/
inductive Translation where
  | leaf (s : String)
  | node (entries : List (String × Translation))

/-- The static language list built by `initializeLanguages`. -/
def languages : List LanguageConfig :=
  [ { code := "en", name := "English", nativeName := "English",
      direction := Direction.ltr, flag := "🇺🇸", dateFormat := "MM/DD/YYYY",
      currency := "USD", enabled := true },
    { code := "es", name := "Spanish", nativeName := "Español",
      direction := Direction.ltr, flag := "🇪🇸", dateFormat := "DD/MM/YYYY",
      currency := "EUR", enabled := true },
    { code := "fr", name := "French", nativeName := "Français",
      direction := Direction.ltr, flag := "🇫🇷", dateFormat := "DD/MM/YYYY",
      currency := "EUR", enabled := true },
    { code := "de", name := "German", nativeName := "Deutsch",
      direction := Direction.ltr, flag := "🇩🇪", dateFormat := "DD.MM.YYYY",
      currency := "EUR", enabled := true },
    { code := "ja", name := "Japanese", nativeName := "日本語",
      direction := Direction.ltr, flag := "🇯🇵", dateFormat := "YYYY/MM/DD",
      currency := "JPY", enabled := true },
    { code := "zh", name := "Chinese (Simplified)", nativeName := "简体中文",
      direction := Direction.ltr, flag := "🇨🇳", dateFormat := "YYYY/MM/DD",
      currency := "CNY", enabled := true },
    { code := "ar", name := "Arabic", nativeName := "العربية",
      direction := Direction.rtl, flag := "🇸🇦", dateFormat := "DD/MM/YYYY",
      currency := "SAR", enabled := false } ]

/-- `this.languageConfigs`: the map built by `languages.forEach(set)`. -/
def languageConfigs : List (String × LanguageConfig) :=
  languages.map (fun lang => (lang.code, lang))

/-- `this.defaultLanguage`, assigned once and never mutated. -/
def defaultLanguage : String := "en"

/-- `isLanguageSupported`: the config exists and is enabled. -/
def isLanguageSupported (language : String) : Bool :=
  match lookupAssoc languageConfigs language with
  | some config => config.enabled
  | none => false

/-- The pieces of browser state `detectLanguage` consults. -/
structure DetectEnv where
  queryLang : Option String
  pathname : String
  storedLang : Option String
  navigatorLanguage : String
  navigatorLanguages : List String

/-- First non-empty `/`-separated segment of a pathname
(`pathname.split('/').filter(Boolean)[0]`). -/
def firstNonemptyPathSegment (pathname : String) : Option String :=
  match ((splitOnChar '/' pathname.data).map String.mk).filter
      (fun s => !s.isEmpty) with
  | [] => none
  | seg :: _ => some seg

/-- `extractLanguageFromPath`. -/
def extractLanguageFromPath (pathname : String) : Option String :=
  match firstNonemptyPathSegment pathname with
  | some potentialLang =>
    if potentialLang.length == 2 && isLanguageSupported potentialLang then
      some potentialLang
    else none
  | none => none

/-- `lang.split('-')[0]`. -/
def baseSubtag (lang : String) : String :=
  match splitOnChar '-' lang.data with
  | [] => ""
  | s :: _ => String.mk s

/-- The `for (const lang of navigator.languages)` loop of `detectLanguage`. -/
def findSupportedNavigatorLanguage : List String → Option String
  | [] => none
  | lang :: rest =>
    let langCode := baseSubtag lang
    if isLanguageSupported langCode then some langCode
    else findSupportedNavigatorLanguage rest

/-- Steps 4–6 of `detectLanguage`: primary browser language, then the
browser's language list, then the default. -/
def detectFromNavigator (env : DetectEnv) : String :=
  let browserLang := baseSubtag env.navigatorLanguage
  if isLanguageSupported browserLang then browserLang
  else
    match findSupportedNavigatorLanguage env.navigatorLanguages with
    | some langCode => langCode
    | none => defaultLanguage

/-- Step 3 of `detectLanguage`: the persisted preference (a stored empty
string is falsy in JS and is skipped). -/
def detectFromStorage (env : DetectEnv) : String :=
  match env.storedLang with
  | some storedLang =>
    if !storedLang.isEmpty && isLanguageSupported storedLang then storedLang
    else detectFromNavigator env
  | none => detectFromNavigator env

/-- Step 2 of `detectLanguage`: the URL path segment. -/
def detectFromPath (env : DetectEnv) : String :=
  match extractLanguageFromPath env.pathname with
  | some pathLang =>
    if isLanguageSupported pathLang then pathLang else detectFromStorage env
  | none => detectFromStorage env

/-- `detectLanguage`: query parameter, then path, then storage, then the
navigator languages, then the default. -/
def detectLanguage (env : DetectEnv) : String :=
  match env.queryLang with
  | some urlLang =>
    if !urlLang.isEmpty && isLanguageSupported urlLang then urlLang
    else detectFromPath env
  | none => detectFromPath env

/-- The detection candidates in the precedence order the specification
states: query parameter, path segment, persisted preference, primary browser
language truncated to its base subtag, each browser-reported language's base
subtag, the configured default. -/
def detectionCandidates (env : DetectEnv) : List String :=
  env.queryLang.toList ++
  (firstNonemptyPathSegment env.pathname).toList ++
  env.storedLang.toList ++
  [baseSubtag env.navigatorLanguage] ++
  env.navigatorLanguages.map baseSubtag ++
  [defaultLanguage]

/-- The whole engine-relevant state: the instance fields of `SonarI18n`
that the claims touch, plus the browser state its methods read and write. -/
structure EngineState where
  currentLanguage : String
  translations : List (String × Translation)
  storedLang : Option String
  pathname : String
  isRTL : Bool
  notifications : List String
  fetchLog : List String

/-- Walk a translation tree along a list of key segments, as the loop of
`getTranslation` does: descend while the current value is an object
containing the segment, and finally require a string leaf. -/
def walkTree : Translation → List String → Option String
  | Translation.leaf s, [] => some s
  | Translation.node _, [] => none
  | Translation.leaf _, _ :: _ => none
  | Translation.node entries, seg :: segs =>
    match lookupAssoc entries seg with
    | some child => walkTree child segs
    | none => none

/-- `getTranslation(key, language)`: fetch the language's tree from the
store (null if absent) and walk it along `key.split('.')`. -/
def getTranslation (store : List (String × Translation)) (key language : String) :
    Option String :=
  match lookupAssoc store language with
  | none => none
  | some tree => walkTree tree ((splitOnChar '.' key.data).map String.mk)

/-- JS truthiness of the `translation` local of `t`: `null` and the empty
string are falsy. -/
def jsFalsyStr : Option String → Bool
  | none => true
  | some s => s.isEmpty

/-- The interpolation loop of `t`: `Object.keys(interpolations).forEach`,
building `new RegExp(pattern, 'g')` for each placeholder name in turn.  A
name whose pattern does not compile makes the `RegExp` constructor throw,
which escapes `t`; this is the `Except.error` case. -/
def applyInterpolations : List (String × String) → String → Except String String
  | [], s => Except.ok s
  | (placeholder, value) :: rest, s =>
    if interpRegexCompiles placeholder then
      applyInterpolations rest (interpolateOne placeholder value s)
    else Except.error "SyntaxError: Invalid regular expression"

/-- `t(key, interpolations?)`: resolve in the current language, fall back to
the default language when the result is falsy, fall back to the key itself,
then apply the interpolations. -/
def t (st : EngineState) (key : String)
    (interpolations : Option (List (String × String))) : Except String String :=
  let first := getTranslation st.translations key st.currentLanguage
  let second :=
    if jsFalsyStr first && !(st.currentLanguage == defaultLanguage) then
      getTranslation st.translations key defaultLanguage
    else first
  let resolved : String :=
    match second with
    | some s => if s.isEmpty then key else s
    | none => key
  match interpolations with
  | none => Except.ok resolved
  | some m => applyInterpolations m resolved

/-- The inline English table of `getInlineTranslations`. -/
def inlineEn : Translation :=
  Translation.node
    [ ("nav", Translation.node
        [ ("home", Translation.leaf "Home"),
          ("work", Translation.leaf "Work"),
          ("studio", Translation.leaf "Studio"),
          ("team", Translation.leaf "Team"),
          ("blog", Translation.leaf "Blog"),
          ("contact", Translation.leaf "Contact") ]),
      ("hero", Translation.node
        [ ("title", Translation.leaf "Crafting Exceptional Sound Experiences"),
          ("subtitle", Translation.leaf "Premium Sound Design"),
          ("description", Translation.leaf
            "We create immersive audio experiences for film, television, and new media."),
          ("cta", Translation.leaf "Explore Our Work") ]),
      ("common", Translation.node
        [ ("loading", Translation.leaf "Loading..."),
          ("read_more", Translation.leaf "Read More"),
          ("learn_more", Translation.leaf "Learn More"),
          ("contact_us", Translation.leaf "Contact Us"),
          ("get_started", Translation.leaf "Get Started"),
          ("view_project", Translation.leaf "View Project"),
          ("play_video", Translation.leaf "Play Video"),
          ("close", Translation.leaf "Close"),
          ("next", Translation.leaf "Next"),
          ("previous", Translation.leaf "Previous"),
          ("search", Translation.leaf "Search"),
          ("filter", Translation.leaf "Filter"),
          ("sort", Translation.leaf "Sort"),
          ("all", Translation.leaf "All") ]),
      ("footer", Translation.node
        [ ("description", Translation.leaf
            "Crafting exceptional sound experiences for film, television, and new media."),
          ("navigation", Translation.leaf "Navigation"),
          ("services", Translation.leaf "Services"),
          ("connect", Translation.leaf "Connect"),
          ("copyright", Translation.leaf "© 2024 Sonar Music. All rights reserved."),
          ("privacy", Translation.leaf "Privacy Policy"),
          ("terms", Translation.leaf "Terms of Service") ]) ]

/-- The inline Spanish table of `getInlineTranslations`. -/
def inlineEs : Translation :=
  Translation.node
    [ ("nav", Translation.node
        [ ("home", Translation.leaf "Inicio"),
          ("work", Translation.leaf "Trabajo"),
          ("studio", Translation.leaf "Estudio"),
          ("team", Translation.leaf "Equipo"),
          ("blog", Translation.leaf "Blog"),
          ("contact", Translation.leaf "Contacto") ]),
      ("hero", Translation.node
        [ ("title", Translation.leaf "Creando Experiencias Sonoras Excepcionales"),
          ("subtitle", Translation.leaf "Diseño de Sonido Premium"),
          ("description", Translation.leaf
            "Creamos experiencias de audio inmersivas para cine, televisión y nuevos medios."),
          ("cta", Translation.leaf "Explora Nuestro Trabajo") ]),
      ("common", Translation.node
        [ ("loading", Translation.leaf "Cargando..."),
          ("read_more", Translation.leaf "Leer Más"),
          ("learn_more", Translation.leaf "Aprende Más"),
          ("contact_us", Translation.leaf "Contáctanos"),
          ("get_started", Translation.leaf "Comenzar"),
          ("view_project", Translation.leaf "Ver Proyecto"),
          ("play_video", Translation.leaf "Reproducir Video"),
          ("close", Translation.leaf "Cerrar"),
          ("next", Translation.leaf "Siguiente"),
          ("previous", Translation.leaf "Anterior"),
          ("search", Translation.leaf "Buscar"),
          ("filter", Translation.leaf "Filtrar"),
          ("sort", Translation.leaf "Ordenar"),
          ("all", Translation.leaf "Todos") ]),
      ("footer", Translation.node
        [ ("description", Translation.leaf
            "Creando experiencias sonoras excepcionales para cine, televisión y nuevos medios."),
          ("navigation", Translation.leaf "Navegación"),
          ("services", Translation.leaf "Servicios"),
          ("connect", Translation.leaf "Conectar"),
          ("copyright", Translation.leaf "© 2024 Sonar Music. Todos los derechos reservados."),
          ("privacy", Translation.leaf "Política de Privacidad"),
          ("terms", Translation.leaf "Términos de Servicio") ]) ]

/-- The inline French table of `getInlineTranslations`. -/
def inlineFr : Translation :=
  Translation.node
    [ ("nav", Translation.node
        [ ("home", Translation.leaf "Accueil"),
          ("work", Translation.leaf "Travail"),
          ("studio", Translation.leaf "Studio"),
          ("team", Translation.leaf "Équipe"),
          ("blog", Translation.leaf "Blog"),
          ("contact", Translation.leaf "Contact") ]),
      ("hero", Translation.node
        [ ("title", Translation.leaf "Créer des Expériences Sonores Exceptionnelles"),
          ("subtitle", Translation.leaf "Design Sonore Premium"),
          ("description", Translation.leaf
            "Nous créons des expériences audio immersives pour le cinéma, la télévision et les nouveaux médias."),
          ("cta", Translation.leaf "Explorez Notre Travail") ]),
      ("common", Translation.node
        [ ("loading", Translation.leaf "Chargement..."),
          ("read_more", Translation.leaf "Lire Plus"),
          ("learn_more", Translation.leaf "En Savoir Plus"),
          ("contact_us", Translation.leaf "Contactez-nous"),
          ("get_started", Translation.leaf "Commencer"),
          ("view_project", Translation.leaf "Voir le Projet"),
          ("play_video", Translation.leaf "Lire la Vidéo"),
          ("close", Translation.leaf "Fermer"),
          ("next", Translation.leaf "Suivant"),
          ("previous", Translation.leaf "Précédent"),
          ("search", Translation.leaf "Rechercher"),
          ("filter", Translation.leaf "Filtrer"),
          ("sort", Translation.leaf "Trier"),
          ("all", Translation.leaf "Tous") ]),
      ("footer", Translation.node
        [ ("description", Translation.leaf
            "Créer des expériences sonores exceptionnelles pour le cinéma, la télévision et les nouveaux médias."),
          ("navigation", Translation.leaf "Navigation"),
          ("services", Translation.leaf "Services"),
          ("connect", Translation.leaf "Se Connecter"),
          ("copyright", Translation.leaf "© 2024 Sonar Music. Tous droits réservés."),
          ("privacy", Translation.leaf "Politique de Confidentialité"),
          ("terms", Translation.leaf "Conditions de Service") ]) ]

/-- `getInlineTranslations(language)`: the inline table for the language, or
(`translations[language] || translations.en`) the English table when the
language has no inline table. -/
def getInlineTranslations (language : String) : Translation :=
  match lookupAssoc [("en", inlineEn), ("es", inlineEs), ("fr", inlineFr)] language with
  | some tree => tree
  | none => inlineEn

/-- What the external fetch collaborator produces for a locale code:
either a parsed translation tree (`response.ok` and valid JSON), or any of
the failure modes — network rejection, a non-ok response (the code throws on
`!response.ok`), malformed JSON — all of which land in the same `catch`. -/
inductive FetchOutcome where
  | ok (tree : Translation)
  | failure

/-- `loadLanguageTranslations(language)`: issue the fetch and store the
resulting tree; on any failure store the inline fallback table instead.
The `catch` covers every failure of the fetch/parse pipeline, and nothing in
the handler can fail, so the operation is total — it never rejects. -/
def loadLanguageTranslations (fetchFn : String → FetchOutcome)
    (st : EngineState) (language : String) : EngineState :=
  let st1 := { st with fetchLog := st.fetchLog ++ [language] }
  match fetchFn language with
  | FetchOutcome.ok tree =>
    { st1 with translations := setAssoc st1.translations language tree }
  | FetchOutcome.failure =>
    { st1 with translations :=
        setAssoc st1.translations language (getInlineTranslations language) }

/-- The translation-store load step as `changeLanguage` awaits it: a state
transformation together with an `Except` outcome.  `storeLoad` wraps the
actual store, which always resolves. -/
def storeLoad (fetchFn : String → FetchOutcome) :
    EngineState → String → EngineState × Except Unit Unit :=
  fun st language => (loadLanguageTranslations fetchFn st language, Except.ok ())

/-- `updateURL`: replace an existing language path segment with the current
language, or prefix the current language when it is not the default, then
write the path back (`history.replaceState`) if it changed. -/
def updateURL (st : EngineState) : EngineState :=
  let currentPath := st.pathname
  let newPath :=
    match extractLanguageFromPath currentPath with
    | some currentLangInPath =>
      replaceFirst currentPath ("/" ++ currentLangInPath) ("/" ++ st.currentLanguage)
    | none =>
      if !(st.currentLanguage == defaultLanguage) then
        "/" ++ st.currentLanguage ++ currentPath
      else currentPath
  if !(newPath == currentPath) then { st with pathname := newPath } else st

/-- `updatePageDirection`: recompute the RTL flag from the current
language's config (the `document` attribute writes are outside the model). -/
def updatePageDirection (st : EngineState) : EngineState :=
  match lookupAssoc languageConfigs st.currentLanguage with
  | some config => { st with isRTL := config.direction == Direction.rtl }
  | none => st

/-- The data a suspended `changeLanguage` call holds across its `await`:
the remembered previous language and the requested language. -/
structure PendingSwitch where
  previousLanguage : String
  language : String
deriving DecidableEq

/-- The synchronous prefix of `changeLanguage`, up to the `await` of the
load: the unsupported/same-language guard, remembering the previous
language, and the assignment `this.currentLanguage = language` (which
happens before the suspension).  Returns `none` when the guard made the call
a no-op. -/
def changeLanguagePhase1 (st : EngineState) (language : String) :
    EngineState × Option PendingSwitch :=
  if !(isLanguageSupported language) || language == st.currentLanguage then
    (st, none)
  else
    ({ st with currentLanguage := language },
     some { previousLanguage := st.currentLanguage, language := language })

/-- The continuation of `changeLanguage` after its `await`: apply the load
step; on success run `updateURL`, `updatePageDirection`, the
`localStorage.setItem` persistence and the `languageChanged` dispatch (the
`updatePageContent` DOM walk is outside the model); on a load failure the
`catch` restores the previous language, logs, and completes normally. -/
def changeLanguagePhase2
    (load : EngineState → String → EngineState × Except Unit Unit)
    (st : EngineState) (p : PendingSwitch) : EngineState × Except Unit Unit :=
  match load st p.language with
  | (st2, Except.ok _) =>
    let st3 := updateURL st2
    let st4 := updatePageDirection st3
    let st5 := { st4 with storedLang := some p.language }
    let st6 := { st5 with notifications := st5.notifications ++ [st5.currentLanguage] }
    (st6, Except.ok ())
  | (st2, Except.error _) =>
    ({ st2 with currentLanguage := p.previousLanguage }, Except.ok ())

/-- `changeLanguage(language)` run to completion with no interleaved call:
phase 1 followed immediately by phase 2. -/
def changeLanguage
    (load : EngineState → String → EngineState × Except Unit Unit)
    (st : EngineState) (language : String) : EngineState × Except Unit Unit :=
  match changeLanguagePhase1 st language with
  | (st1, none) => (st1, Except.ok ())
  | (st1, some p) => changeLanguagePhase2 load st1 p

/-- `getLocalizedURL(path, language?)`: note `language || this.currentLanguage`
treats an explicit empty string as absent. -/
def getLocalizedURL (st : EngineState) (path : String)
    (language : Option String) : String :=
  let lang :=
    match language with
    | some l => if l.isEmpty then st.currentLanguage else l
    | none => st.currentLanguage
  if lang == defaultLanguage then path
  else "/" ++ lang ++ path

/-- A fresh engine state as the constructor leaves it before any load:
English active, empty store, nothing persisted, root path. -/
def engineInit : EngineState :=
  { currentLanguage := "en", translations := [], storedLang := none,
    pathname := "/", isRTL := false, notifications := [], fetchLog := [] }

/-- Looking up a key just written by `setAssoc` returns the written value. -/
lemma lookup_set_same {α : Type} (l : List (String × α)) (k : String) (v : α) :
    lookupAssoc (setAssoc l k v) k = some v := by
  induction l with
  | nil => simp [setAssoc, lookupAssoc]
  | cons hd rest ih =>
    obtain ⟨k0, v0⟩ := hd
    by_cases h : k0 = k
    · subst h
      simp [setAssoc, lookupAssoc]
    · simp [setAssoc, lookupAssoc, h, ih]

/-- `find?` over an appended list: the left part wins when it has a hit. -/
lemma find_first_append {α : Type} (p : α → Bool) (l1 l2 : List α) :
    List.find? p (l1 ++ l2) =
      (List.find? p l1).orElse (fun _ => List.find? p l2) := by
  induction l1 with
  | nil => simp
  | cons a rest ih =>
    cases hp : p a <;> simp [List.find?, hp, ih]

/-- The enabled codes of the registry, by exhausting the lookup chain. -/
lemma supported_cases (s : String) (h : isLanguageSupported s = true) :
    s = "en" ∨ s = "es" ∨ s = "fr" ∨ s = "de" ∨ s = "ja" ∨ s = "zh" := by
  by_cases h1 : s = "en"; · exact Or.inl h1
  by_cases h2 : s = "es"; · exact Or.inr (Or.inl h2)
  by_cases h3 : s = "fr"; · exact Or.inr (Or.inr (Or.inl h3))
  by_cases h4 : s = "de"; · exact Or.inr (Or.inr (Or.inr (Or.inl h4)))
  by_cases h5 : s = "ja"; · exact Or.inr (Or.inr (Or.inr (Or.inr (Or.inl h5))))
  by_cases h6 : s = "zh"; · exact Or.inr (Or.inr (Or.inr (Or.inr (Or.inr h6))))
  exfalso
  by_cases h7 : s = "ar"
  · subst h7; exact absurd h (by decide)
  · have : isLanguageSupported s = false := by
      simp only [isLanguageSupported, languageConfigs, languages, List.map,
        lookupAssoc]
      rw [if_neg (fun hb => h1 (eq_of_beq hb).symm),
          if_neg (fun hb => h2 (eq_of_beq hb).symm),
          if_neg (fun hb => h3 (eq_of_beq hb).symm),
          if_neg (fun hb => h4 (eq_of_beq hb).symm),
          if_neg (fun hb => h5 (eq_of_beq hb).symm),
          if_neg (fun hb => h6 (eq_of_beq hb).symm),
          if_neg (fun hb => h7 (eq_of_beq hb).symm)]
    rw [this] at h
    exact absurd h (by decide)

/-- Enabled codes are non-empty strings. -/
lemma supported_not_empty (s : String) (h : isLanguageSupported s = true) :
    s.isEmpty = false := by
  rcases supported_cases s h with rfl | rfl | rfl | rfl | rfl | rfl <;> decide

/-- Enabled codes are two characters long. -/
lemma supported_length_two (s : String) (h : isLanguageSupported s = true) :
    s.length = 2 := by
  rcases supported_cases s h with rfl | rfl | rfl | rfl | rfl | rfl <;> decide

/-- C10: for every path string and non-empty language code,
`getLocalizedURL` returns the path unchanged when the language is the
default, and otherwise returns `"/" + lang + path` unconditionally; it never
inspects the path, so localizing an already-localized path stacks a second
prefix. -/
theorem localized_url_always_prefixes :
    (∀ (st : EngineState) (path lang : String), lang.isEmpty = false →
        getLocalizedURL st path (some lang) =
          if lang == defaultLanguage then path else "/" ++ lang ++ path) ∧
    (∀ (st : EngineState) (path lang lang2 : String),
        lang.isEmpty = false → lang2.isEmpty = false →
        (lang == defaultLanguage) = false → (lang2 == defaultLanguage) = false →
        getLocalizedURL st (getLocalizedURL st path (some lang2)) (some lang) =
          "/" ++ lang ++ ("/" ++ lang2 ++ path)) := by
  constructor
  · intro st path lang hne
    simp [getLocalizedURL, hne]
  · intro st path lang lang2 hne hne2 hdef hdef2
    simp [getLocalizedURL, hne, hne2, hdef, hdef2]

/-- C10 witness: localizing `"/about"` to Spanish, twice over French. -/
theorem localized_url_always_prefixes_witness :
    getLocalizedURL engineInit "/about" (some "es") = "/" ++ "es" ++ "/about" ∧
    getLocalizedURL engineInit (getLocalizedURL engineInit "/about" (some "fr"))
        (some "es") = "/" ++ "es" ++ ("/" ++ "fr" ++ "/about") := by
  constructor
  · have h := localized_url_always_prefixes.1 engineInit "/about" "es" (by decide)
    simpa using h
  · exact localized_url_always_prefixes.2 engineInit "/about" "es" "fr"
      (by decide) (by decide) (by decide) (by decide)

/-- A fetch collaborator that always succeeds with an empty tree. -/
def fetchEmptyOk : String → FetchOutcome := fun _ => FetchOutcome.ok (Translation.node [])

/-- A fetch collaborator that always fails. -/
def fetchAlwaysFails : String → FetchOutcome := fun _ => FetchOutcome.failure

/-- C3 counterexample: loading the same code twice issues two fetches — the
store keeps no per-code cache, so the second call is never a cache hit. -/
theorem store_load_refetches_counterexample :
    (loadLanguageTranslations fetchEmptyOk
        (loadLanguageTranslations fetchEmptyOk engineInit "en") "en").fetchLog
      = ["en", "en"] := rfl

/-- C3 amended: `load(code)` invokes the fetch collaborator on every call —
two calls fetch twice, not at most once; since the collaborator is a
function of the code, the tree stored by the second call is structurally
identical to the one stored by the first. -/
theorem store_load_always_fetches :
    ∀ (fetchFn : String → FetchOutcome) (st : EngineState) (code : String),
      (loadLanguageTranslations fetchFn
          (loadLanguageTranslations fetchFn st code) code).fetchLog
        = st.fetchLog ++ [code, code] ∧
      lookupAssoc (loadLanguageTranslations fetchFn
          (loadLanguageTranslations fetchFn st code) code).translations code
        = lookupAssoc (loadLanguageTranslations fetchFn st code).translations code := by
  intro fetchFn st code
  constructor
  · cases hf : fetchFn code <;> simp [loadLanguageTranslations, hf]
  · cases hf : fetchFn code <;>
      simp [loadLanguageTranslations, hf, lookup_set_same]

/-- C5 counterexample: on a fetch failure for `"de"` — a code that has no
built-in inline table — the store substitutes the built-in English table,
not an empty tree. -/
theorem inline_fallback_counterexample :
    lookupAssoc (loadLanguageTranslations fetchAlwaysFails engineInit "de").translations
        "de" = some inlineEn ∧
    inlineEn ≠ Translation.node [] := by
  refine ⟨rfl, ?_⟩
  intro h
  simp [inlineEn] at h

/-- C5 amended: whenever the fetch collaborator fails for a code, the store
installs `getInlineTranslations code` for that code — the built-in table for
the code when one exists (`en`, `es`, `fr`), else the built-in English table
— and the load still resolves normally (never raises to the caller). -/
theorem inline_fallback_amended :
    ∀ (fetchFn : String → FetchOutcome) (st : EngineState) (code : String),
      fetchFn code = FetchOutcome.failure →
      lookupAssoc (loadLanguageTranslations fetchFn st code).translations code
          = some (getInlineTranslations code) ∧
      storeLoad fetchFn st code
          = (loadLanguageTranslations fetchFn st code, Except.ok ()) := by
  intro fetchFn st code hf
  exact ⟨by simp [loadLanguageTranslations, hf, lookup_set_same], rfl⟩

/-- C5 witness: a failing fetch for French installs the built-in French
table and resolves. -/
theorem inline_fallback_amended_witness :
    lookupAssoc (loadLanguageTranslations fetchAlwaysFails engineInit "fr").translations
        "fr" = some (getInlineTranslations "fr") ∧
    storeLoad fetchAlwaysFails engineInit "fr"
        = (loadLanguageTranslations fetchAlwaysFails engineInit "fr", Except.ok ()) :=
  inline_fallback_amended fetchAlwaysFails engineInit "fr" rfl

/-- A load step that raises (models a catastrophic failure of the store's
load, the case the specification's rollback clause is about). -/
def failingLoadStep : EngineState → String → EngineState × Except Unit Unit :=
  fun st _ => (st, Except.error ())

/-- C6 counterexample: when the awaited load step raises during
`changeLanguage("fr")`, the call rolls the language back but swallows the
failure — it completes with `Except.ok`, so nothing is propagated to the
caller. -/
theorem switch_rollback_counterexample :
    changeLanguage failingLoadStep engineInit "fr" = (engineInit, Except.ok ()) := rfl

/-- C6 amended: if the load step raises during `switchTo(code)`, the switch
rolls back — `activeLocale` after the call equals its value before the call
— but the failure is logged and swallowed, not propagated: the call always
completes with `Except.ok`. -/
theorem switch_rollback_amended :
    ∀ (st : EngineState) (language : String)
      (load : EngineState → String → EngineState × Except Unit Unit),
      (∀ s l, (load s l).2 = Except.error ()) →
      (changeLanguage load st language).1.currentLanguage = st.currentLanguage ∧
      (changeLanguage load st language).2 = Except.ok () := by
  intro st language load hload
  unfold changeLanguage changeLanguagePhase1
  by_cases hg : (!(isLanguageSupported language) || language == st.currentLanguage) = true
  · simp [hg]
  · have hload2 := hload { st with currentLanguage := language } language
    simp only [Bool.not_eq_true] at hg
    cases hl : load { st with currentLanguage := language } language with
    | mk st2 outcome =>
      rw [hl] at hload2
      simp only at hload2
      subst hload2
      unfold changeLanguagePhase2
      simp [hg, hl]

/-- C6 witness: the amended rollback at a concrete failing switch. -/
theorem switch_rollback_amended_witness :
    (changeLanguage failingLoadStep engineInit "fr").1.currentLanguage = "en" ∧
    (changeLanguage failingLoadStep engineInit "fr").2 = Except.ok () := by
  have h := switch_rollback_amended engineInit "fr" failingLoadStep (fun _ _ => rfl)
  exact ⟨h.1, h.2⟩

/-- The resolver fallback chain exactly as the claim words it: a walk
"fails" only on a missing path or a non-string leaf (`getTranslation`
returning null); a successful walk's string — even an empty one — is the
result. -/
def resolveSpecClaim (st : EngineState) (key : String) : String :=
  match getTranslation st.translations key st.currentLanguage with
  | some s => s
  | none =>
    if st.currentLanguage == defaultLanguage then key
    else
      match getTranslation st.translations key defaultLanguage with
      | some s => s
      | none => key

/-- JS truthiness filter on a walk result: an empty-string leaf counts as a
failed walk, exactly as `t`'s `!translation` tests treat it. -/
def truthyStr (o : Option String) : Option String :=
  match o with
  | some s => if s.isEmpty then none else some s
  | none => none

/-- The resolver fallback chain as amended: a walk also "fails" when it
reaches an empty-string leaf, because the source tests the result with JS
truthiness. -/
def resolveSpecAmended (st : EngineState) (key : String) : String :=
  match truthyStr (getTranslation st.translations key st.currentLanguage) with
  | some s => s
  | none =>
    if st.currentLanguage == defaultLanguage then key
    else
      match truthyStr (getTranslation st.translations key defaultLanguage) with
      | some s => s
      | none => key

/-- A state whose active Spanish tree has an empty-string leaf at `"a"`
while the English tree has `"x"` there. -/
def emptyLeafState : EngineState :=
  { engineInit with
    currentLanguage := "es",
    translations :=
      [ ("es", Translation.node [("a", Translation.leaf "")]),
        ("en", Translation.node [("a", Translation.leaf "x")]) ] }

/-- C2 counterexample: with an empty-string leaf in the active tree, the
walk succeeds in the claim's sense (a string leaf was reached), so the
claimed resolver returns `""`; the code instead treats the empty string as
falsy and falls through to the default locale's `"x"`. -/
theorem resolver_fallback_counterexample :
    t emptyLeafState "a" none = Except.ok "x" ∧
    resolveSpecClaim emptyLeafState "a" = "" ∧
    ("x" : String) ≠ "" := by
  refine ⟨rfl, rfl, by decide⟩

/-- A state with active Spanish, where `footer.onlyInEnglish` exists only in
the English tree. -/
def enOnlyKeyState : EngineState :=
  { engineInit with
    currentLanguage := "es",
    translations :=
      [ ("es", Translation.node [("footer", Translation.node [])]),
        ("en", Translation.node
          [ ("footer", Translation.node
              [("onlyInEnglish", Translation.leaf "The English string")]) ]) ] }

/-- C2 amended: resolution walks the active tree; if the walk fails —
missing path, non-string leaf, or an empty-string leaf (JS falsiness) — and
the active locale differs from the default, it walks the default tree under
the same notion of failure; if both fail it returns the key itself.  The
spec's two examples hold as stated. -/
theorem resolver_fallback_amended :
    (∀ (st : EngineState) (key : String),
        t st key none = Except.ok (resolveSpecAmended st key)) ∧
    t enOnlyKeyState "footer.onlyInEnglish" none = Except.ok "The English string" ∧
    t enOnlyKeyState "a.b.missing" none = Except.ok "a.b.missing" := by
  refine ⟨?_, rfl, rfl⟩
  intro st key
  unfold t resolveSpecAmended truthyStr jsFalsyStr
  cases h1 : getTranslation st.translations key st.currentLanguage with
  | none =>
    by_cases hc : (st.currentLanguage == defaultLanguage) = true
    · simp [hc]
    · simp only [Bool.not_eq_true] at hc
      cases h2 : getTranslation st.translations key defaultLanguage with
      | none => simp [hc, h2]
      | some s2 =>
        by_cases he2 : s2.isEmpty = true
        · simp [hc, h2, he2]
        · simp only [Bool.not_eq_true] at he2
          simp [hc, h2, he2]
  | some s =>
    by_cases he : s.isEmpty = true
    · by_cases hc : (st.currentLanguage == defaultLanguage) = true
      · simp [hc, he]
      · simp only [Bool.not_eq_true] at hc
        cases h2 : getTranslation st.translations key defaultLanguage with
        | none => simp [hc, h2, he]
        | some s2 =>
          by_cases he2 : s2.isEmpty = true
          · simp [hc, h2, he, he2]
          · simp only [Bool.not_eq_true] at he2
            simp [hc, h2, he, he2]
    · simp only [Bool.not_eq_true] at he
      by_cases hc : (st.currentLanguage == defaultLanguage) = true <;>
        simp [hc, he]

/-- A state whose English tree holds templates for the interpolation
claims. -/
def templateState : EngineState :=
  { engineInit with
    translations :=
      [ ("en", Translation.node
          [ ("greeting", Translation.leaf "Hello \x7b\x7bname\x7d\x7d"),
            ("farewell", Translation.leaf "Bye \x7b\x7bunknown\x7d\x7d") ]) ] }

/-- C4: the failing input — an interpolation map whose placeholder name is
`"("`.  `t` splices the name into `new RegExp("\x7b\x7b\s*" + name + "\s*\x7d\x7d")`
unescaped; the resulting pattern has an unterminated group, so the
constructor throws and the exception escapes `t`, contradicting the
guarantee that `resolve` never throws. -/
theorem interpolation_regex_throws :
    t templateState "greeting" (some [("(", "Ava")])
      = Except.error "SyntaxError: Invalid regular expression" ∧
    interpRegexCompiles "(" = false := by
  exact ⟨rfl, rfl⟩

/-- C7 counterexample: issue `changeLanguage("fr")` and, while it is
suspended at its load, issue `changeLanguage("de")`.  The second call is not
rejected — the only guards are "unsupported" and "equals current language",
and the first call already set the current language to `fr` — so both calls
run to completion and two `languageChanged` notifications are emitted. -/
theorem reentrancy_counterexample :
    (changeLanguagePhase1 engineInit "fr").2
        = some { previousLanguage := "en", language := "fr" } ∧
    (changeLanguagePhase1 (changeLanguagePhase1 engineInit "fr").1 "de").2
        = some { previousLanguage := "fr", language := "de" } ∧
    ((changeLanguagePhase2 (storeLoad fetchEmptyOk)
        (changeLanguagePhase2 (storeLoad fetchEmptyOk)
          (changeLanguagePhase1 (changeLanguagePhase1 engineInit "fr").1 "de").1
          { previousLanguage := "en", language := "fr" }).1
        { previousLanguage := "fr", language := "de" }).1).notifications
      = ["de", "de"] := ⟨rfl, rfl, rfl⟩

/-- C7 amended: a second `changeLanguage` issued while a prior one is
suspended is rejected only when it names the same code the prior call
already installed (the synchronous `this.currentLanguage = language`
assignment makes the equality guard fire); a second call with a different
supported code proceeds concurrently, and the interleaved pair emits two
notifications, not at most one. -/
theorem reentrancy_amended :
    (∀ (st st1 : EngineState) (language : String) (p : PendingSwitch),
        changeLanguagePhase1 st language = (st1, some p) →
        changeLanguagePhase1 st1 language = (st1, none)) ∧
    (changeLanguagePhase1 (changeLanguagePhase1 engineInit "fr").1 "de").2
        = some { previousLanguage := "fr", language := "de" } ∧
    ((changeLanguagePhase2 (storeLoad fetchEmptyOk)
        (changeLanguagePhase2 (storeLoad fetchEmptyOk)
          (changeLanguagePhase1 (changeLanguagePhase1 engineInit "fr").1 "de").1
          { previousLanguage := "en", language := "fr" }).1
        { previousLanguage := "fr", language := "de" }).1).notifications.length
      = 2 := by
  refine ⟨?_, rfl, rfl⟩
  intro st st1 language p h
  unfold changeLanguagePhase1 at h ⊢
  by_cases hg : (!(isLanguageSupported language) || language == st.currentLanguage) = true
  · rw [if_pos hg] at h
    simp at h
  · rw [if_neg hg] at h
    have h1 : st1 = { st with currentLanguage := language } := by
      have := congrArg Prod.fst h
      simpa using this.symm
    subst h1
    simp

/-- C7 witness: a same-code second call while the first is in flight is a
no-op. -/
theorem reentrancy_amended_witness :
    changeLanguagePhase1 (changeLanguagePhase1 engineInit "fr").1 "fr"
      = ((changeLanguagePhase1 engineInit "fr").1, none) :=
  reentrancy_amended.1 engineInit (changeLanguagePhase1 engineInit "fr").1 "fr"
    { previousLanguage := "en", language := "fr" } rfl

/-- A prefix is stripped intact from its own append. -/
lemma list_prefix_self_append (p tail : List Char) :
    p.isPrefixOf (p ++ tail) = true := by
  induction p with
  | nil => cases tail <;> rfl
  | cons c cs ih => simp [List.isPrefixOf, ih]

/-- `replaceFirstList` on a subject that starts with the pattern replaces
exactly that leading occurrence. -/
lemma replaceFirst_head (pat repl tail : List Char) (h : pat ≠ []) :
    replaceFirstList pat repl (pat ++ tail) = repl ++ tail := by
  cases pat with
  | nil => exact absurd rfl h
  | cons c cs =>
    rw [List.cons_append]
    unfold replaceFirstList
    rw [show ((c :: cs).isPrefixOf (c :: (cs ++ tail))) = true by
          rw [← List.cons_append]; exact list_prefix_self_append (c :: cs) tail]
    simp

/-- `splitOnChar` always yields at least one group. -/
lemma splitOnChar_ne_nil (sep : Char) (l : List Char) : splitOnChar sep l ≠ [] := by
  induction l with
  | nil => simp [splitOnChar]
  | cons c cs ih =>
    simp only [splitOnChar]
    by_cases h : (c == sep) = true
    · simp [h]
    · cases hr : splitOnChar sep cs with
      | nil => exact absurd hr ih
      | cons g gs => simp [h, hr]

/-- Splitting `a ++ b` when `a` contains no separator: the first group of
the split of `b` gets `a` prepended. -/
lemma splitOnChar_append_noSep (sep : Char) (a b : List Char)
    (ha : ∀ x ∈ a, (x == sep) = false) :
    ∃ g gs, splitOnChar sep b = g :: gs ∧
      splitOnChar sep (a ++ b) = (a ++ g) :: gs := by
  induction a with
  | nil =>
    cases hb : splitOnChar sep b with
    | nil => exact absurd hb (splitOnChar_ne_nil sep b)
    | cons g gs => exact ⟨g, gs, rfl, by simp [hb]⟩
  | cons c cs ih =>
    obtain ⟨g, gs, hb, hab⟩ := ih (fun x hx => ha x (List.mem_cons_of_mem c hx))
    refine ⟨g, gs, hb, ?_⟩
    have hc := ha c (List.mem_cons_self c cs)
    rw [List.cons_append]
    simp only [splitOnChar, hab, hc]
    simp

/-- A string built from a non-empty character list is non-empty. -/
lemma mk_cons_not_empty (c : Char) (cs : List Char) :
    (String.mk (c :: cs)).isEmpty = false := by
  by_cases h : (String.mk (c :: cs)).isEmpty = true
  · rw [String.isEmpty_iff] at h
    have := congrArg String.data h
    simp at this
  · simpa using h

/-- The first non-empty segment of `"/" + code + rest` is `code`, when
`code` contains no slash and `rest` is empty or starts with a slash. -/
lemma firstSegment_code (l rest : String)
    (hl : ∀ x ∈ l.data, (x == '/') = false) (hne : l.data ≠ [])
    (hrest : rest.data = [] ∨ ∃ r, rest.data = '/' :: r) :
    firstNonemptyPathSegment ("/" ++ l ++ rest) = some l := by
  have hdata : ("/" ++ l ++ rest).data = '/' :: (l.data ++ rest.data) := rfl
  unfold firstNonemptyPathSegment
  rw [hdata]
  simp only [splitOnChar]
  cases hrest with
  | inl hr0 =>
    obtain ⟨g, gs, hb, hab⟩ := splitOnChar_append_noSep '/' l.data rest.data hl
    rw [hr0] at hab
    have hb0 : splitOnChar '/' ([] : List Char) = [[]] := rfl
    rw [hr0] at hb
    rw [hb0] at hb
    cases hb
    rw [hr0, hab]
    cases hld : l.data with
    | nil => exact absurd hld hne
    | cons c cs =>
      simp only [hld, List.map, List.append_nil]
      have he : (String.mk ([] : List Char)).isEmpty = true := rfl
      have hfil : List.filter (fun s : String => !s.isEmpty)
          [String.mk [], String.mk (c :: cs)] = [String.mk (c :: cs)] := by
        simp [List.filter_cons, he, mk_cons_not_empty]
      rw [hfil, ← hld]
  | inr hr1 =>
    obtain ⟨r, hr⟩ := hr1
    obtain ⟨g, gs, hb, hab⟩ := splitOnChar_append_noSep '/' l.data rest.data hl
    rw [hr] at hb
    have hb0 : splitOnChar '/' ('/' :: r) = [] :: splitOnChar '/' r := by
      simp [splitOnChar]
    rw [hb0] at hb
    cases hb
    rw [hr] at hab
    rw [hr, hab]
    cases hld : l.data with
    | nil => exact absurd hld hne
    | cons c cs =>
      simp only [hld, List.map, List.append_nil]
      have he : (String.mk ([] : List Char)).isEmpty = true := rfl
      have hfil : List.filter (fun s : String => !s.isEmpty)
          (String.mk [] :: String.mk (c :: cs) :: List.map String.mk (splitOnChar '/' r))
          = String.mk (c :: cs) ::
              List.filter (fun s => !s.isEmpty) (List.map String.mk (splitOnChar '/' r)) := by
        simp [List.filter_cons, he, mk_cons_not_empty]
      rw [hfil, ← hld]

/-- `extractLanguageFromPath` recognizes a supported code in first-segment
position. -/
lemma extract_code (l rest : String) (hsup : isLanguageSupported l = true)
    (hrest : rest.data = [] ∨ ∃ r, rest.data = '/' :: r) :
    extractLanguageFromPath ("/" ++ l ++ rest) = some l := by
  have h6 := supported_cases l hsup
  have hl : ∀ x ∈ l.data, (x == '/') = false := by
    rcases h6 with rfl | rfl | rfl | rfl | rfl | rfl <;> decide
  have hne : l.data ≠ [] := by
    rcases h6 with rfl | rfl | rfl | rfl | rfl | rfl <;> decide
  have hlen : (l.length == 2) = true := by
    rcases h6 with rfl | rfl | rfl | rfl | rfl | rfl <;> decide
  unfold extractLanguageFromPath
  rw [firstSegment_code l rest hl hne hrest]
  simp [hlen, hsup]

/-- `replaceFirst` on a path that begins with the searched prefix. -/
lemma replaceFirst_code (l rest cur : String) :
    replaceFirst ("/" ++ l ++ rest) ("/" ++ l) ("/" ++ cur)
      = "/" ++ cur ++ rest := by
  unfold replaceFirst
  have h1 : ("/" ++ l ++ rest).data = ("/" ++ l).data ++ rest.data := rfl
  rw [h1, replaceFirst_head _ _ _ (by simp)]
  rfl

/-- The trailing `history.replaceState` guard of `updateURL` never changes
the resulting path value. -/
lemma ite_update_pathname (st : EngineState) (np : String) :
    (if !(np == st.pathname) then { st with pathname := np } else st).pathname
      = np := by
  by_cases h : (np == st.pathname) = true
  · simp [h, (eq_of_beq h).symm]
  · simp only [Bool.not_eq_true] at h
    simp [h]

/-- The path computed by `updateURL`, with the write-back guard removed. -/
lemma updateURL_pathname (st : EngineState) :
    (updateURL st).pathname =
      (match extractLanguageFromPath st.pathname with
       | some currentLangInPath =>
         replaceFirst st.pathname ("/" ++ currentLangInPath)
           ("/" ++ st.currentLanguage)
       | none =>
         if !(st.currentLanguage == defaultLanguage) then
           "/" ++ st.currentLanguage ++ st.pathname
         else st.pathname) := by
  unfold updateURL
  exact ite_update_pathname st _

/-- C8 amended: when the path carries a supported leading locale segment,
`updateURL` always replaces it with the current language — including a
switch back to the default, which leaves a `/en`-style prefix in place
rather than removing it; when no locale segment is present, a prefix is
added exactly when the current language is not the default. -/
theorem url_rewrite_amended :
    (∀ (st : EngineState) (l rest : String),
        st.pathname = "/" ++ l ++ rest →
        isLanguageSupported l = true →
        (rest.data = [] ∨ ∃ r, rest.data = '/' :: r) →
        (updateURL st).pathname = "/" ++ st.currentLanguage ++ rest) ∧
    (∀ st : EngineState,
        extractLanguageFromPath st.pathname = none →
        (st.currentLanguage == defaultLanguage) = false →
        (updateURL st).pathname = "/" ++ st.currentLanguage ++ st.pathname) ∧
    (∀ st : EngineState,
        extractLanguageFromPath st.pathname = none →
        (st.currentLanguage == defaultLanguage) = true →
        (updateURL st).pathname = st.pathname) := by
  refine ⟨?_, ?_, ?_⟩
  · intro st l rest hpath hsup hrest
    rw [updateURL_pathname, hpath, extract_code l rest hsup hrest]
    exact replaceFirst_code l rest st.currentLanguage
  · intro st hx hdef
    rw [updateURL_pathname, hx]
    simp [hdef]
  · intro st hx hdef
    rw [updateURL_pathname, hx]
    simp [hdef]

/-- C8 witness: replacing the `fr` segment when switching to the default. -/
theorem url_rewrite_amended_witness :
    (updateURL
        { engineInit with currentLanguage := "en", pathname := "/fr/about" }).pathname
      = "/" ++ "en" ++ "/about" :=
  url_rewrite_amended.1
    { engineInit with currentLanguage := "en", pathname := "/fr/about" }
    "fr" "/about" rfl (by decide) (Or.inr ⟨"about".data, rfl⟩)

/-- The engine just before a switch back to English from French, on a
French-prefixed page. -/
def preSwitchState : EngineState :=
  { engineInit with currentLanguage := "fr", pathname := "/fr/about" }

/-- C8 counterexample: a successful switch back to the default locale does
not remove the locale prefix — the URL ends up at `/en/about`, not
`/about` (the notification conjunct shows the switch did succeed). -/
theorem url_rewrite_counterexample :
    ((changeLanguage (storeLoad fetchEmptyOk) preSwitchState "en").1).pathname
        = "/en/about" ∧
    ((changeLanguage (storeLoad fetchEmptyOk) preSwitchState "en").1).notifications
        = ["en"] := ⟨rfl, rfl⟩

/-- Characters that are regex-literal and identifier-like: ASCII
alphanumerics and underscore.  The claims' placeholder names are of this
form; for them the constructed pattern matches the name text literally. -/
def isPlainChar (c : Char) : Bool := c.isAlphanum || c == '_'

/-- A non-empty placeholder name made of plain characters. -/
def isPlainName (s : String) : Bool := !s.isEmpty && s.data.all isPlainChar

/-- A plain character differs from any non-plain character. -/
lemma plain_ne (c d : Char) (h : isPlainChar c = true)
    (hd : isPlainChar d = false) : (c == d) = false := by
  by_cases hcd : c = d
  · subst hcd
    rw [h] at hd
    cases hd
  · exact beq_eq_false_iff_ne.mpr hcd

/-- A plain character is not regex whitespace. -/
lemma plain_not_space (c : Char) (h : isPlainChar c = true) :
    isJsSpace c = false := by
  unfold isJsSpace
  rw [plain_ne c ' ' h (by decide), plain_ne c '\t' h (by decide),
      plain_ne c '\n' h (by decide), plain_ne c '\r' h (by decide),
      plain_ne c (Char.ofNat 11) h (by decide),
      plain_ne c (Char.ofNat 12) h (by decide),
      plain_ne c (Char.ofNat 160) h (by decide)]
  rfl

/-- Unpack `isPlainName`. -/
lemma plainName_split (s : String) (h : isPlainName s = true) :
    s.data ≠ [] ∧ ∀ c ∈ s.data, isPlainChar c = true := by
  unfold isPlainName at h
  rw [Bool.and_eq_true] at h
  obtain ⟨h1, h2⟩ := h
  refine ⟨?_, fun c hc => List.all_eq_true.mp h2 c hc⟩
  intro hd
  have hs : s = "" := by
    cases s with
    | mk data => simp at hd; rw [hd]
  rw [hs] at h1
  exact absurd h1 (by decide)

/-- A plain character, outside a class at depth 0, is a literal atom: the
validity scan consumes it and allows a quantifier next. -/
lemma regexSyntaxOk_plain_step (c : Char) (rest : List Char) (q : Bool)
    (h : isPlainChar c = true) :
    regexSyntaxOk (c :: rest) 0 q false = regexSyntaxOk rest 0 true false := by
  rw [regexSyntaxOk.eq_def]
  show (if (c == '\\') = true then
          match rest with
          | [] => false
          | _ :: rest2 => regexSyntaxOk rest2 0 true false
        else
          if (false : Bool) = true then
            if (c == ']') = true then regexSyntaxOk rest 0 true false
            else regexSyntaxOk rest 0 q true
          else
            if (c == '[') = true then regexSyntaxOk rest 0 false true
            else
              if (c == '(') = true then regexSyntaxOk rest (0 + 1) false false
              else
                if (c == ')') = true then
                  match (0 : Nat) with
                  | 0 => false
                  | d + 1 => regexSyntaxOk rest d true false
                else
                  if (c == '*' || c == '+' || c == '?') = true then
                    q && regexSyntaxOk rest 0 false false
                  else regexSyntaxOk rest 0 true false)
      = regexSyntaxOk rest 0 true false
  rw [plain_ne c '\\' h (by decide), plain_ne c '[' h (by decide),
      plain_ne c '(' h (by decide), plain_ne c ')' h (by decide),
      plain_ne c '*' h (by decide), plain_ne c '+' h (by decide),
      plain_ne c '?' h (by decide)]
  simp

/-- After the opening `\x7b\x7b\s*` of the pattern, a plain placeholder name
followed by the closing `\s*\x7d\x7d` always passes the validity scan. -/
lemma regex_plain_middle (nd : List Char)
    (h : ∀ c ∈ nd, isPlainChar c = true) :
    ∀ q : Bool,
      regexSyntaxOk (nd ++ ('\\' :: 's' :: '*' :: '\x7d' :: '\x7d' :: []))
        0 q false = true := by
  induction nd with
  | nil => intro q; rfl
  | cons c nd' ih =>
    intro q
    rw [List.cons_append,
        regexSyntaxOk_plain_step c _ q (h c (List.mem_cons_self c nd'))]
    exact ih (fun d hd => h d (List.mem_cons_of_mem c hd)) true

/-- A literal opening brace is an atom for the scan. -/
lemma regex_step_brace (r : List Char) (q : Bool) :
    regexSyntaxOk ('\x7b' :: r) 0 q false = regexSyntaxOk r 0 true false := by
  rw [regexSyntaxOk.eq_def]
  rfl

/-- An escape sequence is an atom for the scan. -/
lemma regex_step_escape (x : Char) (r : List Char) (q : Bool) :
    regexSyntaxOk ('\\' :: x :: r) 0 q false = regexSyntaxOk r 0 true false := by
  rw [regexSyntaxOk.eq_def]
  rfl

/-- A star after an atom is accepted and blocks a following quantifier. -/
lemma regex_step_star (r : List Char) :
    regexSyntaxOk ('*' :: r) 0 true false = regexSyntaxOk r 0 false false := by
  rw [regexSyntaxOk.eq_def]
  rfl

/-- The interpolation pattern of a plain placeholder name compiles. -/
lemma interpRegexCompiles_plain (name : String)
    (h : ∀ c ∈ name.data, isPlainChar c = true) :
    interpRegexCompiles name = true := by
  unfold interpRegexCompiles interpPatternChars
  rw [regex_step_brace, regex_step_brace, regex_step_escape, regex_step_star]
  exact regex_plain_middle name.data h false

/-- `dropWhile` skips a block that wholly satisfies the predicate. -/
lemma dropWhile_all_append (p : Char → Bool) (a b : List Char)
    (ha : ∀ c ∈ a, p c = true) :
    (a ++ b).dropWhile p = b.dropWhile p := by
  induction a with
  | nil => rfl
  | cons c a' ih =>
    rw [List.cons_append, List.dropWhile_cons,
        if_pos (ha c (List.mem_cons_self c a'))]
    exact ih (fun d hd => ha d (List.mem_cons_of_mem c hd))

/-- `dropWhile` stops at a head that fails the predicate. -/
lemma dropWhile_not_head (p : Char → Bool) (c : Char) (cs : List Char)
    (h : p c = false) : (c :: cs).dropWhile p = c :: cs := by
  rw [List.dropWhile_cons, h]
  simp

/-- `stripLeading` strips its own text. -/
lemma stripLeading_self (p tail : List Char) :
    stripLeading p (p ++ tail) = some tail := by
  induction p with
  | nil => rfl
  | cons c cs ih => simp [stripLeading, ih]

/-- A successful full match of the placeholder pattern wrapped in arbitrary
whitespace consumes the whole subject. -/
lemma matchAt_exact (nd ws1 ws2 : List Char)
    (hnd : ∀ c ∈ nd, isPlainChar c = true) (hndne : nd ≠ [])
    (hw1 : ∀ c ∈ ws1, isJsSpace c = true) (hw2 : ∀ c ∈ ws2, isJsSpace c = true) :
    matchAt nd
        ('\x7b' :: '\x7b' :: (ws1 ++ (nd ++ (ws2 ++ ['\x7d', '\x7d']))))
      = some [] := by
  show (match stripLeading nd
          ((ws1 ++ (nd ++ (ws2 ++ ['\x7d', '\x7d']))).dropWhile isJsSpace) with
        | some r2 => matchBraces (r2.dropWhile isJsSpace)
        | none => none) = some []
  rw [dropWhile_all_append isJsSpace ws1 _ hw1]
  cases hn : nd with
  | nil => exact absurd hn hndne
  | cons n ns =>
    rw [hn] at hnd
    rw [List.cons_append,
        dropWhile_not_head isJsSpace n _
          (plain_not_space n (hnd n (List.mem_cons_self n ns))),
        ← List.cons_append, stripLeading_self]
    show matchBraces ((ws2 ++ ['\x7d', '\x7d']).dropWhile isJsSpace) = some []
    rw [dropWhile_all_append isJsSpace ws2 _ hw2]
    rfl

/-- `matchBraces` fails on any head other than a closing brace. -/
lemma matchBraces_none (d : Char) (xs : List Char)
    (h : (d == '\x7d') = false) : matchBraces (d :: xs) = none := by
  rw [matchBraces.eq_def]
  split
  · rename_i heq
    injection heq with h1 _
    rw [h1] at h
    simp at h
  · rfl

/-- The pattern cannot match at an empty subject. -/
lemma matchAt_nil (nd : List Char) : matchAt nd [] = none := rfl

/-- The pattern cannot match where the first character is not `\x7b`. -/
lemma matchAt_cons_ne (nd : List Char) (c : Char) (s : List Char)
    (h : (c == '\x7b') = false) : matchAt nd (c :: s) = none := by
  rw [matchAt.eq_def]
  split
  · rename_i heq
    injection heq with h1 _
    rw [h1] at h
    simp at h
  · rfl

/-- The pattern cannot match where the second character is not `\x7b`. -/
lemma matchAt_cons2_ne (nd : List Char) (c2 : Char) (s : List Char)
    (h : (c2 == '\x7b') = false) : matchAt nd ('\x7b' :: c2 :: s) = none := by
  rw [matchAt.eq_def]
  split
  · rename_i heq
    injection heq with _ h2
    injection h2 with h3 _
    rw [h3] at h
    simp at h
  · rfl

/-- Stripping one plain name from a different plain name followed by closing
braces either fails outright or leaves a plain character at the head. -/
lemma strip_then_fail (nd : List Char) :
    ∀ od : List Char, (∀ c ∈ nd, isPlainChar c = true) →
      (∀ c ∈ od, isPlainChar c = true) → nd ≠ od →
      stripLeading nd (od ++ ['\x7d', '\x7d']) = none ∨
      ∃ d ds, stripLeading nd (od ++ ['\x7d', '\x7d'])
          = some (d :: (ds ++ ['\x7d', '\x7d'])) ∧ isPlainChar d = true := by
  induction nd with
  | nil =>
    intro od _ hod hne
    cases od with
    | nil => exact absurd rfl hne
    | cons d ds =>
      right
      exact ⟨d, ds, by simp [stripLeading], hod d (List.mem_cons_self d ds)⟩
  | cons n ns ih =>
    intro od hnd hod hne
    cases od with
    | nil =>
      left
      have hne7 := plain_ne n '\x7d' (hnd n (List.mem_cons_self n ns)) (by decide)
      simp [stripLeading, hne7]
    | cons o os =>
      by_cases hno : (n == o) = true
      · have hn := eq_of_beq hno
        have hne' : ns ≠ os := by
          intro hh
          exact hne (by rw [hn, hh])
        have hnd' : ∀ c ∈ ns, isPlainChar c = true :=
          fun c hc => hnd c (List.mem_cons_of_mem n hc)
        have hod' : ∀ c ∈ os, isPlainChar c = true :=
          fun c hc => hod c (List.mem_cons_of_mem o hc)
        rcases ih os hnd' hod' hne' with h1 | ⟨d, ds, hd1, hd2⟩
        · left
          simp [stripLeading, List.cons_append, hno, h1]
        · right
          exact ⟨d, ds, by simp [stripLeading, List.cons_append, hno, hd1], hd2⟩
      · left
        simp only [Bool.not_eq_true] at hno
        simp [stripLeading, List.cons_append, hno]

/-- The pattern for a plain name cannot match a braced occurrence of a
different plain name. -/
lemma matchAt_full_mismatch (nd od : List Char)
    (hnd : ∀ c ∈ nd, isPlainChar c = true) (hod : ∀ c ∈ od, isPlainChar c = true)
    (hne : nd ≠ od) :
    matchAt nd ('\x7b' :: '\x7b' :: (od ++ ['\x7d', '\x7d'])) = none := by
  show (match stripLeading nd
          ((od ++ ['\x7d', '\x7d']).dropWhile isJsSpace) with
        | some r2 => matchBraces (r2.dropWhile isJsSpace)
        | none => none) = none
  have hdw : (od ++ ['\x7d', '\x7d']).dropWhile isJsSpace
      = od ++ ['\x7d', '\x7d'] := by
    cases od with
    | nil => rfl
    | cons o os =>
      rw [List.cons_append]
      exact dropWhile_not_head isJsSpace o _
        (plain_not_space o (hod o (List.mem_cons_self o os)))
  rw [hdw]
  rcases strip_then_fail nd od hnd hod hne with h1 | ⟨d, ds, hd1, hd2⟩
  · rw [h1]
  · rw [hd1]
    show matchBraces ((d :: (ds ++ ['\x7d', '\x7d'])).dropWhile isJsSpace) = none
    rw [dropWhile_not_head isJsSpace d _ (plain_not_space d hd2)]
    exact matchBraces_none d _ (plain_ne d '\x7d' hd2 (by decide))

/-- A scan over a subject none of whose suffixes matches the pattern leaves
the subject unchanged, whatever prefix has already been consumed. -/
lemma replaceAllFuel_no_match (nd vd : List Char) :
    ∀ (fuel : Nat) (pre s : List Char),
      (∀ u, u <:+ s → matchAt nd u = none) →
      replaceAllFuel nd vd fuel pre s = s := by
  intro fuel
  induction fuel with
  | zero =>
    intro pre s _
    cases s <;> rfl
  | succ f ih =>
    intro pre s h
    cases s with
    | nil => rfl
    | cons c cs =>
      have h0 := h (c :: cs) (List.suffix_refl _)
      simp only [replaceAllFuel, h0]
      rw [ih (pre ++ [c]) cs (fun u hu => h u (hu.trans (List.suffix_cons c cs)))]

/-- No suffix of a braced occurrence of a plain name `od` matches the
pattern of a different plain name `nd`. -/
lemma no_match_unmatched (nd od : List Char)
    (hnd : ∀ c ∈ nd, isPlainChar c = true) (hod : ∀ c ∈ od, isPlainChar c = true)
    (hodne : od ≠ []) (hne : nd ≠ od) :
    ∀ u, u <:+ ('\x7b' :: '\x7b' :: (od ++ ['\x7d', '\x7d'])) →
      matchAt nd u = none := by
  intro u hu
  rw [List.suffix_cons_iff] at hu
  rcases hu with rfl | hu
  · exact matchAt_full_mismatch nd od hnd hod hne
  rw [List.suffix_cons_iff] at hu
  rcases hu with rfl | hu
  · cases hodl : od with
    | nil => exact absurd hodl hodne
    | cons o os =>
      rw [List.cons_append]
      exact matchAt_cons2_ne nd o _
        (plain_ne o '\x7b' (hod o (by rw [hodl]; exact List.mem_cons_self o os))
          (by decide))
  · cases u with
    | nil => exact matchAt_nil nd
    | cons c cu =>
      have hc : c ∈ od ++ ['\x7d', '\x7d'] := hu.subset (List.mem_cons_self c cu)
      have hcb : (c == '\x7b') = false := by
        rcases List.mem_append.mp hc with h1 | h2
        · exact plain_ne c '\x7b' (hod c h1) (by decide)
        · simp at h2
          rw [h2]
          decide
      exact matchAt_cons_ne nd c cu hcb

/-- A replacement value with no dollar sign is inserted verbatim by the
substitution step. -/
lemma getSubstitution_no_dollar (value : List Char)
    (h : ∀ c ∈ value, (c == '$') = false) :
    ∀ matched pre post, getSubstitution value matched pre post = value := by
  induction value with
  | nil =>
    intro matched pre post
    rfl
  | cons c rest ih =>
    intro matched pre post
    have hc := h c (List.mem_cons_self c rest)
    have ih2 := ih (fun d hd => h d (List.mem_cons_of_mem c hd)) matched pre post
    cases rest with
    | nil =>
      rw [getSubstitution.eq_def]
      show (if c == '$' then ['$']
            else c :: getSubstitution [] matched pre post) = [c]
      rw [hc]
      simp only [Bool.false_eq_true, if_false]
      rfl
    | cons c2 rest2 =>
      rw [getSubstitution.eq_def]
      show (if c == '$' then
              (if c2 == '$' then '$' :: getSubstitution rest2 matched pre post
               else if c2 == '&' then
                 matched ++ getSubstitution rest2 matched pre post
               else if c2 == Char.ofNat 96 then
                 pre ++ getSubstitution rest2 matched pre post
               else if c2 == Char.ofNat 39 then
                 post ++ getSubstitution rest2 matched pre post
               else '$' :: c2 :: getSubstitution rest2 matched pre post)
            else c :: getSubstitution (c2 :: rest2) matched pre post)
          = c :: c2 :: rest2
      rw [hc]
      simp only [Bool.false_eq_true, if_false]
      rw [ih2]

/-- One scan step replaces a whitespace-wrapped braced occurrence of the
name by a dollar-free value and consumes the whole subject. -/
lemma replaceAll_hit (nd vd ws1 ws2 : List Char)
    (hnd : ∀ c ∈ nd, isPlainChar c = true) (hne : nd ≠ [])
    (hw1 : ∀ c ∈ ws1, isJsSpace c = true) (hw2 : ∀ c ∈ ws2, isJsSpace c = true)
    (hv : ∀ c ∈ vd, (c == '$') = false) :
    ∀ (f : Nat) (pre : List Char),
      replaceAllFuel nd vd (f + 1) pre
          ('\x7b' :: '\x7b' :: (ws1 ++ (nd ++ (ws2 ++ ['\x7d', '\x7d'])))) = vd := by
  intro f pre
  have hm := matchAt_exact nd ws1 ws2 hnd hne hw1 hw2
  simp only [replaceAllFuel, hm]
  rw [getSubstitution_no_dollar vd hv]
  cases f <;> simp [replaceAllFuel]

/-- `interpolateOne` replaces a whole whitespace-padded placeholder by a
dollar-free value. -/
lemma interpolateOne_hit (name value ws1 ws2 : String)
    (hn : isPlainName name = true)
    (hw1 : ws1.data.all isJsSpace = true) (hw2 : ws2.data.all isJsSpace = true)
    (hv : ∀ c ∈ value.data, (c == '$') = false) :
    interpolateOne name value ("\x7b\x7b" ++ ws1 ++ name ++ ws2 ++ "\x7d\x7d")
      = value := by
  obtain ⟨hne, hplain⟩ := plainName_split name hn
  unfold interpolateOne
  have hdata : ("\x7b\x7b" ++ ws1 ++ name ++ ws2 ++ "\x7d\x7d").data
      = '\x7b' :: '\x7b' ::
          (ws1.data ++ (name.data ++ (ws2.data ++ ['\x7d', '\x7d']))) := by
    have h0 : ("\x7b\x7b" ++ ws1 ++ name ++ ws2 ++ "\x7d\x7d").data
        = ((('\x7b' :: '\x7b' :: ws1.data) ++ name.data) ++ ws2.data)
            ++ ['\x7d', '\x7d'] := rfl
    rw [h0]
    simp [List.append_assoc]
  rw [hdata, List.length_cons]
  rw [replaceAll_hit name.data value.data ws1.data ws2.data hplain hne
      (fun c hc => List.all_eq_true.mp hw1 c hc)
      (fun c hc => List.all_eq_true.mp hw2 c hc) hv]

/-- `interpolateOne` leaves a braced occurrence of a different plain name
verbatim. -/
lemma interpolateOne_miss (name value other : String)
    (hn : isPlainName name = true) (ho : isPlainName other = true)
    (hne : name ≠ other) :
    interpolateOne name value ("\x7b\x7b" ++ other ++ "\x7d\x7d")
      = "\x7b\x7b" ++ other ++ "\x7d\x7d" := by
  obtain ⟨hnen, hplainn⟩ := plainName_split name hn
  obtain ⟨hneo, hplaino⟩ := plainName_split other ho
  have hnedata : name.data ≠ other.data := by
    intro hh
    apply hne
    cases name
    cases other
    exact congrArg String.mk hh
  unfold interpolateOne
  have hdata : ("\x7b\x7b" ++ other ++ "\x7d\x7d").data
      = '\x7b' :: '\x7b' :: (other.data ++ ['\x7d', '\x7d']) := by
    have h0 : ("\x7b\x7b" ++ other ++ "\x7d\x7d").data
        = ('\x7b' :: '\x7b' :: other.data) ++ ['\x7d', '\x7d'] := rfl
    rw [h0]
    simp
  rw [hdata]
  rw [replaceAllFuel_no_match name.data value.data _ _ _
      (no_match_unmatched name.data other.data hplainn hplaino hneo hnedata)]
  rw [← hdata]

/-- C9 counterexample: the replacement text is not inserted verbatim — the
string-replacement dollar substitution of `String.prototype.replace`
applies, so resolving the template `"Hello \x7b\x7bname\x7d\x7d"` with the
interpolation value `"$$"` yields `"Hello $"`, not `"Hello $$"` as the
claim's "replaces ... with the corresponding value" requires. -/
theorem interpolation_dollar_counterexample :
    t templateState "greeting" (some [("name", "$$")]) = Except.ok "Hello $" ∧
    ("Hello $" : String) ≠ "Hello $$" := ⟨rfl, by decide⟩

/-- C9 amended: with an interpolation map supplied, the resolver's
replacement step substitutes every `\x7b\x7b name \x7d\x7d` placeholder
whose (plain) name matches a provided key, ignoring surrounding whitespace
inside the braces, with the corresponding value as processed by the
replacement-string dollar substitution (`$$` inserts a dollar, `$&` the
matched text, and so on); a value containing no dollar sign is inserted
verbatim; placeholders with no matching interpolation are left verbatim.
The spec's examples — `"Hello \x7b\x7bname\x7d\x7d"` with `name := "Ava"`
giving `"Hello Ava"`, an unmatched `\x7b\x7bunknown\x7d\x7d` kept
verbatim, and a global replacement of repeated whitespace-padded
occurrences — evaluate as claimed, and the dollar substitution is exhibited
at `"$&"` and `"$$"`. -/
theorem interpolation_behaviour :
    (∀ (ws1 ws2 name value : String),
        isPlainName name = true →
        ws1.data.all isJsSpace = true → ws2.data.all isJsSpace = true →
        (∀ c ∈ value.data, (c == '$') = false) →
        applyInterpolations [(name, value)]
            ("\x7b\x7b" ++ ws1 ++ name ++ ws2 ++ "\x7d\x7d")
          = Except.ok value) ∧
    (∀ (name value other : String),
        isPlainName name = true → isPlainName other = true → name ≠ other →
        applyInterpolations [(name, value)] ("\x7b\x7b" ++ other ++ "\x7d\x7d")
          = Except.ok ("\x7b\x7b" ++ other ++ "\x7d\x7d")) ∧
    t templateState "greeting" (some [("name", "Ava")]) = Except.ok "Hello Ava" ∧
    t templateState "farewell" (some [("name", "Ava")])
      = Except.ok "Bye \x7b\x7bunknown\x7d\x7d" ∧
    interpolateOne "name" "Ava" "\x7b\x7bname\x7d\x7d & \x7b\x7b name \x7d\x7d"
      = "Ava & Ava" ∧
    t templateState "greeting" (some [("name", "$&")])
      = Except.ok "Hello \x7b\x7bname\x7d\x7d" ∧
    t templateState "greeting" (some [("name", "$$")])
      = Except.ok "Hello $" := by
  refine ⟨?_, ?_, rfl, rfl, rfl, rfl, rfl⟩
  · intro ws1 ws2 name value hn hw1 hw2 hv
    obtain ⟨hnen, hplainn⟩ := plainName_split name hn
    have hc := interpRegexCompiles_plain name hplainn
    simp only [applyInterpolations, hc, if_true]
    rw [interpolateOne_hit name value ws1 ws2 hn hw1 hw2 hv]
  · intro name value other hn ho hne
    obtain ⟨hnen, hplainn⟩ := plainName_split name hn
    have hc := interpRegexCompiles_plain name hplainn
    simp only [applyInterpolations, hc, if_true]
    rw [interpolateOne_miss name value other hn ho hne]

/-- C9 witness: the general conjuncts at concrete inputs. -/
theorem interpolation_behaviour_witness :
    applyInterpolations [("name", "Ava")]
        ("\x7b\x7b" ++ " " ++ "name" ++ " " ++ "\x7d\x7d") = Except.ok "Ava" ∧
    applyInterpolations [("name", "Ava")] ("\x7b\x7b" ++ "unknown" ++ "\x7d\x7d")
      = Except.ok ("\x7b\x7b" ++ "unknown" ++ "\x7d\x7d") := by
  constructor
  · exact interpolation_behaviour.1 " " " " "name" "Ava"
      (by decide) (by decide) (by decide) (by decide)
  · exact interpolation_behaviour.2.1 "name" "Ava" "unknown"
      (by decide) (by decide) (by decide)

/-- The navigator-languages loop is `find?` over the base subtags. -/
lemma find_nav (ls : List String) :
    List.find? (fun c => isLanguageSupported c) (ls.map baseSubtag)
      = findSupportedNavigatorLanguage ls := by
  induction ls with
  | nil => rfl
  | cons a rest ih =>
    simp only [List.map, findSupportedNavigatorLanguage]
    cases hp : isLanguageSupported (baseSubtag a) <;> simp [List.find?, hp, ih]

/-- Steps 4–6 of detection as a first-match search. -/
lemma detect_nav_eq (env : DetectEnv) :
    List.find? (fun c => isLanguageSupported c)
        (baseSubtag env.navigatorLanguage ::
          (env.navigatorLanguages.map baseSubtag ++ [defaultLanguage]))
      = some (detectFromNavigator env) := by
  unfold detectFromNavigator
  have hd : isLanguageSupported defaultLanguage = true := by decide
  cases hb : isLanguageSupported (baseSubtag env.navigatorLanguage) with
  | true => simp [List.find?, hb]
  | false =>
    simp only [List.find?, hb]
    rw [find_first_append, find_nav]
    cases hn : findSupportedNavigatorLanguage env.navigatorLanguages with
    | some l => simp [Option.orElse]
    | none => simp [Option.orElse, List.find?, hd]

/-- Step 3 of detection as a first-match search. -/
lemma detect_storage_eq (env : DetectEnv) :
    List.find? (fun c => isLanguageSupported c)
        (env.storedLang.toList ++
          (baseSubtag env.navigatorLanguage ::
            (env.navigatorLanguages.map baseSubtag ++ [defaultLanguage])))
      = some (detectFromStorage env) := by
  unfold detectFromStorage
  cases henv : env.storedLang with
  | none => simpa using detect_nav_eq env
  | some s =>
    by_cases hs : isLanguageSupported s = true
    · have hne := supported_not_empty s hs
      simp [List.find?, hs, hne]
    · have hs' : isLanguageSupported s = false := by
        cases hx : isLanguageSupported s
        · rfl
        · exact absurd hx hs
      simp only [Option.toList, List.cons_append, List.nil_append,
        List.find?, hs']
      simp only [Bool.and_false, Bool.false_eq_true, if_false]
      simpa [List.find?] using detect_nav_eq env

/-- Step 2 of detection as a first-match search: the first non-empty path
segment participates as a candidate, and the source's extra length-2 test is
redundant for supported codes (they all have length 2). -/
lemma detect_path_eq (env : DetectEnv) :
    List.find? (fun c => isLanguageSupported c)
        ((firstNonemptyPathSegment env.pathname).toList ++
          (env.storedLang.toList ++
            (baseSubtag env.navigatorLanguage ::
              (env.navigatorLanguages.map baseSubtag ++ [defaultLanguage]))))
      = some (detectFromPath env) := by
  unfold detectFromPath extractLanguageFromPath
  cases hseg : firstNonemptyPathSegment env.pathname with
  | none => simpa using detect_storage_eq env
  | some seg =>
    by_cases hs : isLanguageSupported seg = true
    · have hlen : (seg.length == 2) = true := by
        rcases supported_cases seg hs with rfl | rfl | rfl | rfl | rfl | rfl <;>
          decide
      simp [List.find?, hs, hlen]
    · have hs' : isLanguageSupported seg = false := by
        cases hx : isLanguageSupported seg
        · rfl
        · exact absurd hx hs
      have htl : (some seg : Option String).toList = [seg] := rfl
      rw [htl, List.singleton_append]
      simp only [List.find?, hs']
      simp only [Bool.and_false, Bool.false_eq_true, if_false]
      exact detect_storage_eq env

/-- C1: for every startup environment, `detectLanguage` returns exactly the
first supported-and-enabled entry of the precedence-ordered candidate list —
query parameter, path segment, persisted preference, primary browser
language's base subtag, each browser-reported language's base subtag, the
default — so it never returns a code for which `isLanguageSupported` is
false; on the spec's example (query `es`, path `/fr/...`, persisted `de`,
browser `ja`) it returns `es`. -/
theorem detect_respects_precedence :
    (∀ env : DetectEnv,
        List.find? (fun c => isLanguageSupported c) (detectionCandidates env)
          = some (detectLanguage env) ∧
        isLanguageSupported (detectLanguage env) = true) ∧
    detectLanguage { queryLang := some "es", pathname := "/fr/studio",
                     storedLang := some "de", navigatorLanguage := "ja",
                     navigatorLanguages := ["ja"] } = "es" := by
  constructor
  · intro env
    have hfind : List.find? (fun c => isLanguageSupported c)
        (detectionCandidates env) = some (detectLanguage env) := by
      unfold detectionCandidates detectLanguage
      cases hq : env.queryLang with
      | none =>
        rw [show (none : Option String).toList = [] from rfl, List.nil_append]
        simp only [List.append_assoc, List.singleton_append]
        exact detect_path_eq env
      | some q =>
        rw [show (some q : Option String).toList = [q] from rfl]
        simp only [List.append_assoc, List.singleton_append, List.cons_append]
        by_cases hqs : isLanguageSupported q = true
        · have hne := supported_not_empty q hqs
          simp [List.find?, hqs, hne]
        · have hq' : isLanguageSupported q = false := by
            cases hx : isLanguageSupported q
            · rfl
            · exact absurd hx hqs
          simp only [List.find?, hq']
          simp only [Bool.and_false, Bool.false_eq_true, if_false]
          exact detect_path_eq env
    refine ⟨hfind, ?_⟩
    have hp := List.find?_some hfind
    simpa using hp
  · rfl
